import Mathlib

set_option maxRecDepth 4000

/-!
Verification of the stream-delta reconciliation logic of
`cost_estimator_agent.estimate_costs_stream` and of the byte-boundary-safe
event-stream decoder of `test_observability._process_response`.

Text is modelled as `List Char` (Python strings are sequences of code
points), decoded text fragments as `List Nat` (code points) and raw bytes
as `List Nat`.
-/

/-- An upstream stream event: either a cumulative text snapshot
(a dict with a `"data"` key) or any other event, forwarded as-is. -/
inductive StreamEvent (α : Type) where
  | data (text : List Char)
  | passthrough (payload : α)
deriving DecidableEq

/-- An output event of `estimate_costs_stream`: a `{"data": delta}` dict,
a forwarded passthrough dict, or the terminal `{"error": true, "data": msg}`
dict produced by the `except` clause. -/
inductive OutEvent (α : Type) where
  | data (text : List Char)
  | passthrough (payload : α)
  | error (msg : List Char)
deriving DecidableEq

/-- Whether an output event is the terminal error marker. -/
def OutEvent.isError {α : Type} : OutEvent α → Bool
  | .error _ => true
  | _ => false

/-- One iteration of the `async for` loop body of `estimate_costs_stream`
(lines 313-330 of `cost_estimator_agent.py`): given the current
`previous_output` and the incoming event, return the new `previous_output`
and the (possibly empty) list of events yielded for this input event. -/
def reconcileStep {α : Type} (previous_output : List Char) (event : StreamEvent α) :
    List Char × List (OutEvent α) :=
  match event with
  | .data current_chunk =>
    if previous_output.isPrefixOf current_chunk then
      let delta_content := current_chunk.drop previous_output.length
      if delta_content ≠ [] then
        (current_chunk, [OutEvent.data delta_content])
      else
        (previous_output, [])
    else
      (current_chunk, [OutEvent.data current_chunk])
  | .passthrough p => (previous_output, [OutEvent.passthrough p])

/-- The reconciliation loop run from an arbitrary `previous_output` state. -/
def reconcileEventsFrom {α : Type} (previous_output : List Char) :
    List (StreamEvent α) → List (OutEvent α)
  | [] => []
  | e :: rest =>
    (reconcileStep previous_output e).2 ++
      reconcileEventsFrom (reconcileStep previous_output e).1 rest

/-- The reconciliation loop run from the initial state `previous_output = ""`. -/
def reconcileEvents {α : Type} (events : List (StreamEvent α)) : List (OutEvent α) :=
  reconcileEventsFrom [] events

/-- The upstream agent stream: the events it yields, and, when it
terminates abnormally, the message of the exception it raises after
yielding them. -/
structure Upstream (α : Type) where
  events : List (StreamEvent α)
  failure : Option (List Char)

/-- The text of the terminal error event built in the `except` clause
(`f"❌ Streaming cost estimation failed: {e}..."`); the stack-trace suffix
is abstracted into the message. -/
def streamFailMessage (msg : List Char) : List Char :=
  "❌ Streaming cost estimation failed: ".data ++ msg

/-- The observable output sequence of `estimate_costs_stream`: the
reconciled events, followed by one terminal error event when the upstream
stream raises (the surrounding `try`/`except` yields it once and the
generator then ends). -/
def estimate_costs_stream {α : Type} (u : Upstream α) : List (OutEvent α) :=
  reconcileEvents u.events ++
    (match u.failure with
     | some msg => [OutEvent.error (streamFailMessage msg)]
     | none => [])

/-- The texts of the `{"data": ...}` delta events of an output sequence,
in emission order. -/
def dataTexts {α : Type} : List (OutEvent α) → List (List Char)
  | [] => []
  | OutEvent.data t :: rest => t :: dataTexts rest
  | _ :: rest => dataTexts rest

/-- The data snapshots of an event sequence form a chain in which each
snapshot extends (as a prefix) the reference text current when it arrives;
non-data events interleave freely. -/
def snapshotChain {α : Type} (reference : List Char) : List (StreamEvent α) → Bool
  | [] => true
  | StreamEvent.data c :: rest => reference.isPrefixOf c && snapshotChain c rest
  | StreamEvent.passthrough _ :: rest => snapshotChain reference rest

/-- The last data snapshot of an event sequence (`reference` if none). -/
def lastSnapshot {α : Type} (reference : List Char) : List (StreamEvent α) → List Char
  | [] => reference
  | StreamEvent.data c :: rest => lastSnapshot c rest
  | StreamEvent.passthrough _ :: rest => lastSnapshot reference rest

/-- Whether a byte is a UTF-8 continuation byte (`0x80`-`0xBF`). -/
def isCont (b : Nat) : Bool := decide (0x80 ≤ b ∧ b ≤ 0xBF)

/-- Valid first continuation byte of a 3-byte sequence led by `b0`
(CPython rejects overlong forms after `0xE0` and surrogates after `0xED`). -/
def cont3Head (b0 b1 : Nat) : Bool :=
  isCont b1 &&
    (if b0 = 0xE0 then decide (0xA0 ≤ b1)
     else if b0 = 0xED then decide (b1 ≤ 0x9F)
     else true)

/-- Valid first continuation byte of a 4-byte sequence led by `b0`
(CPython rejects overlong forms after `0xF0` and values above U+10FFFF
after `0xF4`). -/
def cont4Head (b0 b1 : Nat) : Bool :=
  isCont b1 &&
    (if b0 = 0xF0 then decide (0x90 ≤ b1)
     else if b0 = 0xF4 then decide (b1 ≤ 0x8F)
     else true)

/-- Decode one UTF-8 character starting at byte `b0` followed by `rest`:
`some (codepoint, remaining bytes)` on success, `none` when the sequence
starting here is invalid or incomplete — exactly the positions where
CPython's `bytes.decode('utf-8')` reports the start of its error range. -/
def decodeOne (b0 : Nat) (rest : List Nat) : Option (Nat × List Nat) :=
  if b0 < 0x80 then some (b0, rest)
  else if b0 < 0xC2 then none
  else if b0 < 0xE0 then
    match rest with
    | b1 :: rest1 =>
      if isCont b1 then some ((b0 - 0xC0) * 0x40 + (b1 - 0x80), rest1) else none
    | [] => none
  else if b0 < 0xF0 then
    match rest with
    | b1 :: b2 :: rest2 =>
      if cont3Head b0 b1 && isCont b2 then
        some ((b0 - 0xE0) * 0x1000 + (b1 - 0x80) * 0x40 + (b2 - 0x80), rest2)
      else none
    | _ => none
  else if b0 < 0xF5 then
    match rest with
    | b1 :: b2 :: b3 :: rest3 =>
      if cont4Head b0 b1 && isCont b2 && isCont b3 then
        some ((b0 - 0xF0) * 0x40000 + (b1 - 0x80) * 0x1000 + (b2 - 0x80) * 0x40 + (b3 - 0x80),
          rest3)
      else none
    | _ => none
  else none

/-- Fuel-indexed UTF-8 decoding of a byte list: the code points of the
maximal decodable prefix together with the undecodable suffix (empty on
full success). The fuel only bounds the recursion; `bs.length` is always
enough, each character consuming at least one byte. -/
def utf8DecodeAux : Nat → List Nat → List Nat × List Nat
  | _, [] => ([], [])
  | 0, bs => ([], bs)
  | fuel + 1, b0 :: rest =>
    match decodeOne b0 rest with
    | none => ([], b0 :: rest)
    | some (c, rest') =>
      (c :: (utf8DecodeAux fuel rest').1, (utf8DecodeAux fuel rest').2)

/-- `bytes.decode('utf-8')` as used by `_process_response`: the decoded
maximal valid prefix and the suffix at which decoding fails
(`.2 = []` models a successful decode; otherwise the byte offset
`e.start` of the `UnicodeDecodeError` is `bs.length - (utf8Decode bs).2.length`). -/
def utf8Decode (bs : List Nat) : List Nat × List Nat :=
  utf8DecodeAux bs.length bs

/-- The event-stream framing marker `"data: "`, as code points. -/
def dataMarker : List Nat := [0x64, 0x61, 0x74, 0x61, 0x3A, 0x20]

/-- `if decoded.startswith("data: "): decoded = decoded[6:]`. -/
def stripMarker (decoded : List Nat) : List Nat :=
  if dataMarker.isPrefixOf decoded then decoded.drop 6 else decoded

/-- The inner `while byte_buffer:` decode-retry loop of the
`text/event-stream` branch of `_process_response` (lines 127-148 of
`test_observability.py`), with explicit fuel; the `Bool` flag records that
the loop reached one of its own exits (rather than exhausting the fuel).
On a full decode the result is appended (marker stripped) and the buffer
cleared; on a decode error at offset 0 one byte is dropped and the loop
retries; on an error at a positive offset the decoded valid part is
appended (if non-empty) and the unparsed suffix is retained. -/
def decodeLoop : Nat → List Nat → List (List Nat) → List (List Nat) × List Nat × Bool
  | 0, byte_buffer, content => (content, byte_buffer, false)
  | fuel + 1, byte_buffer, content =>
    if byte_buffer = [] then (content, byte_buffer, true)
    else if (utf8Decode byte_buffer).2 = [] then
      (content ++ [stripMarker (utf8Decode byte_buffer).1], [], true)
    else if byte_buffer.length - (utf8Decode byte_buffer).2.length = 0 then
      decodeLoop fuel (byte_buffer.drop 1) content
    else
      ((if byte_buffer.take (byte_buffer.length - (utf8Decode byte_buffer).2.length) ≠ [] then
          content ++
            [stripMarker
              (utf8Decode
                (byte_buffer.take
                  (byte_buffer.length - (utf8Decode byte_buffer).2.length))).1]
        else content),
        byte_buffer.drop (byte_buffer.length - (utf8Decode byte_buffer).2.length), true)

/-- One iteration of the `for line in response["response"].iter_lines(...)`
loop: empty chunks are skipped (`if line:`); otherwise the chunk is
appended to the buffer and the decode-retry loop is run (the fuel
`length + 1` always suffices, see `decodeLoop_completes`). -/
def processChunk (st : List (List Nat) × List Nat) (line : List Nat) :
    List (List Nat) × List Nat :=
  if line = [] then st
  else
    ((decodeLoop ((st.2 ++ line).length + 1) (st.2 ++ line) st.1).1,
      (decodeLoop ((st.2 ++ line).length + 1) (st.2 ++ line) st.1).2.1)

/-- The `text/event-stream` branch of `_process_response` over a whole
chunk sequence: the accumulated `content` list and the final `byte_buffer`. -/
def processEventStream (chunks : List (List Nat)) : List (List Nat) × List Nat :=
  chunks.foldl processChunk ([], [])

/-- The return value `''.join(content)` of the `text/event-stream` branch
of `_process_response`; the final `byte_buffer` is discarded. -/
def process_response (chunks : List (List Nat)) : List Nat :=
  (processEventStream chunks).1.flatten

lemma isPrefixOf_append_drop {l₁ l₂ : List Char} (h : l₁.isPrefixOf l₂ = true) :
    l₁ ++ l₂.drop l₁.length = l₂ := by
  induction l₁ generalizing l₂ with
  | nil => simp
  | cons a l₁ ih =>
    cases l₂ with
    | nil => simp [List.isPrefixOf] at h
    | cons b l₂ =>
      simp only [List.isPrefixOf, Bool.and_eq_true, beq_iff_eq] at h
      simp [h.1, ih h.2]

lemma eq_of_isPrefixOf_of_drop_nil {l₁ l₂ : List Char}
    (h : l₁.isPrefixOf l₂ = true) (hd : l₂.drop l₁.length = []) : l₂ = l₁ := by
  have := isPrefixOf_append_drop h
  rw [hd] at this
  simpa using this.symm

lemma reconcileEventsFrom_data_delta {α : Type} (prev c : List Char)
    (rest : List (StreamEvent α)) (hpre : prev.isPrefixOf c = true)
    (hne : c.drop prev.length ≠ []) :
    reconcileEventsFrom prev (StreamEvent.data c :: rest) =
      OutEvent.data (c.drop prev.length) :: reconcileEventsFrom c rest := by
  simp [reconcileEventsFrom, reconcileStep, hpre, hne]

lemma reconcileEventsFrom_data_dup {α : Type} (prev c : List Char)
    (rest : List (StreamEvent α)) (hpre : prev.isPrefixOf c = true)
    (hnil : c.drop prev.length = []) :
    reconcileEventsFrom prev (StreamEvent.data c :: rest) =
      reconcileEventsFrom prev rest := by
  simp [reconcileEventsFrom, reconcileStep, hpre, hnil]

lemma reconcileEventsFrom_data_reset {α : Type} (prev c : List Char)
    (rest : List (StreamEvent α)) (hpre : prev.isPrefixOf c = false) :
    reconcileEventsFrom prev (StreamEvent.data c :: rest) =
      OutEvent.data c :: reconcileEventsFrom c rest := by
  simp [reconcileEventsFrom, reconcileStep, hpre]

lemma dataTexts_join_eq_lastSnapshot {α : Type} (events : List (StreamEvent α)) :
    ∀ prev : List Char, snapshotChain prev events = true →
      prev ++ (dataTexts (reconcileEventsFrom prev events)).flatten =
        lastSnapshot prev events := by
  induction events with
  | nil => intro prev _; simp [reconcileEventsFrom, dataTexts, lastSnapshot]
  | cons e rest ih =>
    intro prev h
    cases e with
    | data c =>
      simp only [snapshotChain, Bool.and_eq_true] at h
      by_cases hnil : c.drop prev.length = []
      · have hc : c = prev := eq_of_isPrefixOf_of_drop_nil h.1 hnil
        rw [reconcileEventsFrom_data_dup prev c rest h.1 hnil]
        have := ih prev (by rw [← hc]; exact h.2)
        simpa [lastSnapshot, hc] using this
      · rw [reconcileEventsFrom_data_delta prev c rest h.1 hnil]
        have hjoin := ih c h.2
        simp only [dataTexts, List.flatten_cons, lastSnapshot, ← List.append_assoc]
        rw [isPrefixOf_append_drop h.1]
        exact hjoin
    | passthrough p =>
      simp only [snapshotChain] at h
      have := ih prev h
      simpa [reconcileEventsFrom, reconcileStep, dataTexts, lastSnapshot] using this

lemma reconcileEventsFrom_no_error {α : Type} (events : List (StreamEvent α)) :
    ∀ prev : List Char,
      (reconcileEventsFrom prev events).countP (fun o => o.isError) = 0 := by
  induction events with
  | nil => intro prev; simp [reconcileEventsFrom]
  | cons e rest ih =>
    intro prev
    cases e with
    | data c =>
      by_cases hpre : prev.isPrefixOf c = true
      · by_cases hnil : c.drop prev.length = []
        · rw [reconcileEventsFrom_data_dup prev c rest hpre hnil]; exact ih prev
        · rw [reconcileEventsFrom_data_delta prev c rest hpre hnil,
            List.countP_cons, ih c]
          rfl
      · rw [Bool.not_eq_true] at hpre
        rw [reconcileEventsFrom_data_reset prev c rest hpre, List.countP_cons, ih c]
        rfl
    | passthrough p =>
      simp only [reconcileEventsFrom, reconcileStep]
      rw [List.singleton_append, List.countP_cons, ih prev]
      rfl

lemma decodeOne_consumes {b0 c : Nat} {rest rest' : List Nat}
    (h : decodeOne b0 rest = some (c, rest')) :
    ∃ pre1, pre1 ≠ [] ∧ b0 :: rest = pre1 ++ rest' := by
  rcases rest with _ | ⟨b1, _ | ⟨b2, _ | ⟨b3, rest3⟩⟩⟩ <;>
    (simp only [decodeOne] at h; repeat' split at h) <;>
    (try cases h) <;>
    first
      | exact ⟨[b0], by simp, rfl⟩
      | exact ⟨[b0, b1], by simp, rfl⟩
      | exact ⟨[b0, b1, b2], by simp, rfl⟩
      | exact ⟨[b0, b1, b2, b3], by simp, rfl⟩

lemma decodeOne_rest_le {b0 c : Nat} {rest rest' : List Nat}
    (h : decodeOne b0 rest = some (c, rest')) : rest'.length ≤ rest.length := by
  obtain ⟨pre1, hne, happ⟩ := decodeOne_consumes h
  have := congrArg List.length happ
  cases pre1 with
  | nil => exact absurd rfl hne
  | cons a pre1 => simp at this; omega

lemma utf8Decode_suffix_spec (bs : List Nat) :
    ∃ pre, bs = pre ++ (utf8Decode bs).2 ∧
      utf8Decode ((utf8Decode bs).2) = ([], (utf8Decode bs).2) := by
  suffices h : ∀ fuel (bs : List Nat), bs.length ≤ fuel →
      ∃ pre, bs = pre ++ (utf8DecodeAux fuel bs).2 ∧
        utf8Decode ((utf8DecodeAux fuel bs).2) = ([], (utf8DecodeAux fuel bs).2) by
    exact h bs.length bs le_rfl
  intro fuel
  induction fuel with
  | zero =>
    intro bs hle
    rw [List.length_eq_zero.mp (Nat.le_zero.mp hle)]
    exact ⟨[], rfl, rfl⟩
  | succ fuel ih =>
    intro bs hle
    cases bs with
    | nil => exact ⟨[], rfl, rfl⟩
    | cons b0 rest =>
      rcases hd : decodeOne b0 rest with _ | ⟨c, rest'⟩
      · refine ⟨[], ?_, ?_⟩
        · simp [utf8DecodeAux, hd]
        · have : utf8DecodeAux (fuel + 1) (b0 :: rest) = ([], b0 :: rest) := by
            simp [utf8DecodeAux, hd]
          rw [this]
          show utf8Decode (b0 :: rest) = ([], b0 :: rest)
          simp only [utf8Decode, List.length_cons]
          simp [utf8DecodeAux, hd]
      · have hrest' : rest'.length ≤ fuel := by
          have := decodeOne_rest_le hd
          simp at hle
          omega
        obtain ⟨pre', hpre', hsuf'⟩ := ih rest' hrest'
        obtain ⟨pre1, hne1, happ1⟩ := decodeOne_consumes hd
        have haux : utf8DecodeAux (fuel + 1) (b0 :: rest) =
            (c :: (utf8DecodeAux fuel rest').1, (utf8DecodeAux fuel rest').2) := by
          simp [utf8DecodeAux, hd]
        rw [haux]
        refine ⟨pre1 ++ pre', ?_, hsuf'⟩
        rw [List.append_assoc, ← hpre']
        exact happ1

lemma utf8Decode_drop_eq (bs : List Nat) :
    bs.drop (bs.length - (utf8Decode bs).2.length) = (utf8Decode bs).2 := by
  obtain ⟨pre, hpre, -⟩ := utf8Decode_suffix_spec bs
  generalize hsuf : (utf8Decode bs).2 = suf at hpre ⊢
  subst hpre
  simp [List.length_append, Nat.add_sub_cancel, List.drop_left]

@[simp] lemma utf8Decode_nil : utf8Decode [] = ([], []) := rfl

lemma decodeLoop_completes :
    ∀ (fuel : Nat) (byte_buffer : List Nat) (content : List (List Nat)),
      byte_buffer.length < fuel → (decodeLoop fuel byte_buffer content).2.2 = true := by
  intro fuel
  induction fuel with
  | zero => intro buf content h; omega
  | succ fuel ih =>
    intro buf content h
    by_cases hbuf : buf = []
    · simp [decodeLoop, hbuf]
    · by_cases hfull : (utf8Decode buf).2 = []
      · simp [decodeLoop, hbuf, hfull]
      · by_cases hstart : buf.length - (utf8Decode buf).2.length = 0
        · have : (decodeLoop (fuel + 1) buf content) =
              decodeLoop fuel (buf.drop 1) content := by
            simp [decodeLoop, hbuf, hfull, hstart]
          rw [this]
          apply ih
          have hpos : 0 < buf.length := List.length_pos.mpr hbuf
          simp [List.length_drop]
          omega
        · simp [decodeLoop, hbuf, hfull, hstart]

lemma decodeLoop_buffer_inv :
    ∀ (fuel : Nat) (byte_buffer : List Nat) (content : List (List Nat)),
      (decodeLoop fuel byte_buffer content).2.2 = true →
        utf8Decode ((decodeLoop fuel byte_buffer content).2.1) =
          ([], (decodeLoop fuel byte_buffer content).2.1) := by
  intro fuel
  induction fuel with
  | zero => intro buf content h; simp [decodeLoop] at h
  | succ fuel ih =>
    intro buf content h
    by_cases hbuf : buf = []
    · simp [decodeLoop, hbuf]
    · by_cases hfull : (utf8Decode buf).2 = []
      · simp [decodeLoop, hbuf, hfull]
      · by_cases hstart : buf.length - (utf8Decode buf).2.length = 0
        · have heq : (decodeLoop (fuel + 1) buf content) =
              decodeLoop fuel (buf.drop 1) content := by
            simp [decodeLoop, hbuf, hfull, hstart]
          rw [heq] at h ⊢
          exact ih _ _ h
        · have heq : (decodeLoop (fuel + 1) buf content).2.1 =
              buf.drop (buf.length - (utf8Decode buf).2.length) := by
            simp [decodeLoop, hbuf, hfull, hstart]
          rw [heq, utf8Decode_drop_eq]
          exact (utf8Decode_suffix_spec buf).choose_spec.2

lemma processEventStream_buffer_inv (chunks : List (List Nat)) :
    utf8Decode ((processEventStream chunks).2) = ([], (processEventStream chunks).2) := by
  suffices h : ∀ (st : List (List Nat) × List Nat),
      utf8Decode st.2 = ([], st.2) →
        utf8Decode ((chunks.foldl processChunk st).2) =
          ([], (chunks.foldl processChunk st).2) from
    h ([], []) rfl
  induction chunks with
  | nil => intro st hst; exact hst
  | cons line rest ih =>
    intro st hst
    rw [List.foldl_cons]
    apply ih
    by_cases hline : line = []
    · simpa [processChunk, hline] using hst
    · have hterm : (decodeLoop ((st.2 ++ line).length + 1) (st.2 ++ line) st.1).2.2 = true :=
        decodeLoop_completes _ _ _ (by omega)
      have := decodeLoop_buffer_inv ((st.2 ++ line).length + 1) (st.2 ++ line) st.1 hterm
      simpa [processChunk, hline] using this

/-- C1: when every data snapshot extends (as a prefix) the snapshot before
it, the concatenation, in emission order, of the texts of all emitted
`{"data": ...}` delta events of `estimate_costs_stream` equals the final
snapshot. -/
theorem c1_monotonic_deltas_concat {α : Type} (events : List (StreamEvent α))
    (h : snapshotChain [] events = true) :
    (dataTexts (estimate_costs_stream ⟨events, none⟩)).flatten =
      lastSnapshot [] events := by
  have := dataTexts_join_eq_lastSnapshot events [] h
  simpa [estimate_costs_stream, reconcileEvents] using this

theorem c1_monotonic_deltas_concat_witness :
    (snapshotChain [] [StreamEvent.data ['H','i'], StreamEvent.passthrough 7,
        StreamEvent.data ['H','i',',',' '], StreamEvent.data ['H','i',',',' '],
        StreamEvent.data ['H','i',',',' ','a','l','l']] = true) ∧
      (dataTexts (estimate_costs_stream ⟨[StreamEvent.data ['H','i'],
          StreamEvent.passthrough 7, StreamEvent.data ['H','i',',',' '],
          StreamEvent.data ['H','i',',',' '],
          StreamEvent.data ['H','i',',',' ','a','l','l']], none⟩)).flatten =
        lastSnapshot [] [StreamEvent.data ['H','i'], StreamEvent.passthrough 7,
          StreamEvent.data ['H','i',',',' '], StreamEvent.data ['H','i',',',' '],
          StreamEvent.data ['H','i',',',' ','a','l','l']] :=
  ⟨by decide, c1_monotonic_deltas_concat _ (by decide)⟩

/-- C2, evaluation at the failing input: the UTF-8 encoding of "あ"
(`E3 81 82`) split after its first byte is lost entirely — the decode
error for the incomplete buffer `[E3]` has offset 0, so the code drops
the byte instead of waiting for the rest of the character, and the two
continuation bytes are then dropped the same way; `_process_response`
returns the empty string although the full byte string decodes to the
single code point U+3042. -/
theorem c2_split_drops_bytes :
    process_response [[0xE3], [0x81, 0x82]] = [] ∧
      utf8Decode [0xE3, 0x81, 0x82] = ([0x3042], []) := by decide

/-- C3 counterexample: with `previous_output = "Hi"`, an empty-string
snapshot is NOT suppressed: `"".startswith("Hi")` is false, so the reset
branch fires, `{"data": ""}` is emitted and the state is reset — the step
does not return `("Hi", [])` as the claim predicts. -/
theorem c3_counterexample :
    reconcileStep (α := Nat) ['H','i'] (StreamEvent.data []) ≠
      (['H','i'], ([] : List (OutEvent Nat))) := by decide

/-- C3 amended: an empty-string snapshot is suppressed (no output, state
unchanged) only when `previous_output` is itself empty; when
`previous_output` is non-empty, the empty snapshot does not start with it,
so the reset rule fires: `{"data": ""}` is emitted and `previous_output`
is reset to the empty string. A sequence consisting only of empty-string
snapshots, run from the initial state, still yields no delta events. -/
theorem c3_amended_empty_snapshot {α : Type} :
    (∀ prev : List Char, prev ≠ [] →
        reconcileStep (α := α) prev (StreamEvent.data []) =
          ([], [OutEvent.data []])) ∧
      reconcileStep (α := α) [] (StreamEvent.data []) = ([], []) ∧
      ∀ n : Nat,
        reconcileEventsFrom (α := α) []
          (List.replicate n (StreamEvent.data [])) = [] := by
  refine ⟨?_, ?_, ?_⟩
  · intro prev hne
    cases prev with
    | nil => exact absurd rfl hne
    | cons a l => simp [reconcileStep, List.isPrefixOf]
  · simp [reconcileStep]
  · intro n
    induction n with
    | zero => simp [reconcileEventsFrom]
    | succ n ih =>
      rw [List.replicate_succ,
        reconcileEventsFrom_data_dup [] [] _ rfl rfl]
      exact ih

theorem c3_amended_empty_snapshot_witness :
    reconcileStep (α := Nat) ['H','i'] (StreamEvent.data []) =
        ([], [OutEvent.data []]) ∧
      reconcileEventsFrom (α := Nat) []
        (List.replicate 3 (StreamEvent.data [])) = [] :=
  ⟨(c3_amended_empty_snapshot).1 ['H','i'] (by decide),
    (c3_amended_empty_snapshot).2.2 3⟩

/-- C4: when the upstream stream raises after yielding its events, the
output of `estimate_costs_stream` is exactly the reconciled outputs of
those events followed by exactly one terminal `{"error": true, "data": msg}`
event, after which the sequence ends; the whole output contains exactly one
error event. -/
theorem c4_upstream_error_once {α : Type} (events : List (StreamEvent α))
    (msg : List Char) :
    estimate_costs_stream ⟨events, some msg⟩ =
        reconcileEvents events ++ [OutEvent.error (streamFailMessage msg)] ∧
      (estimate_costs_stream ⟨events, some msg⟩).countP (fun o => o.isError) = 1 := by
  constructor
  · rfl
  · have h0 := reconcileEventsFrom_no_error (α := α) events []
    simp only [estimate_costs_stream, reconcileEvents, List.countP_append, h0,
      List.countP_cons, List.countP_nil]
    rfl

/-- C5: a Data event whose text does not start with `previous_output` is
emitted verbatim as a single `{"data": chunk}` event and becomes the new
`previous_output` (stream-reset leniency, not an error). -/
theorem c5_reset_emits_verbatim {α : Type} (prev c : List Char)
    (h : prev.isPrefixOf c = false) :
    reconcileStep (α := α) prev (StreamEvent.data c) = (c, [OutEvent.data c]) := by
  simp [reconcileStep, h]

theorem c5_reset_emits_verbatim_witness :
    (['H','e','l','l','o'].isPrefixOf ['B','y','e'] = false) ∧
      reconcileStep (α := Nat) ['H','e','l','l','o'] (StreamEvent.data ['B','y','e']) =
        (['B','y','e'], [OutEvent.data ['B','y','e']]) :=
  ⟨by decide, c5_reset_emits_verbatim ['H','e','l','l','o'] ['B','y','e'] (by decide)⟩

/-- C6: a duplicate snapshot (one that starts with `previous_output` and
adds nothing) is suppressed: no output event is emitted and the
reconciliation state is unchanged. -/
theorem c6_duplicate_suppressed {α : Type} (prev c : List Char)
    (hpre : prev.isPrefixOf c = true) (hnil : c.drop prev.length = []) :
    reconcileStep (α := α) prev (StreamEvent.data c) = (prev, []) := by
  simp [reconcileStep, hpre, hnil]

theorem c6_duplicate_suppressed_witness :
    (['H','i'].isPrefixOf ['H','i'] = true) ∧ (['H','i'].drop 2 = ([] : List Char)) ∧
      reconcileStep (α := Nat) ['H','i'] (StreamEvent.data ['H','i']) = (['H','i'], []) :=
  ⟨by decide, by decide, c6_duplicate_suppressed ['H','i'] ['H','i'] (by decide) (by decide)⟩

/-- C7: a passthrough event is forwarded unchanged, in its position, and
leaves `previous_output` untouched, so surrounding delta computation is
unaffected. -/
theorem c7_passthrough_transparent {α : Type} (p : α) (prev : List Char)
    (rest : List (StreamEvent α)) :
    reconcileEventsFrom prev (StreamEvent.passthrough p :: rest) =
      OutEvent.passthrough p :: reconcileEventsFrom prev rest ∧
    (reconcileStep prev (StreamEvent.passthrough p)).1 = prev := by
  constructor
  · simp [reconcileEventsFrom, reconcileStep]
  · simp [reconcileStep]

/-- C8: the inner decode-retry loop of the event-stream branch terminates
for every buffer and content: any fuel exceeding the buffer length lets the
loop reach one of its own exits (each retry iteration strictly shrinks the
buffer by one byte, every other branch exits). -/
theorem c8_decode_loop_terminates (fuel : Nat) (byte_buffer : List Nat)
    (content : List (List Nat)) (h : byte_buffer.length < fuel) :
    (decodeLoop fuel byte_buffer content).2.2 = true :=
  decodeLoop_completes fuel byte_buffer content h

theorem c8_decode_loop_terminates_witness :
    (([0x80, 0x41] : List Nat).length < 3) ∧
      (decodeLoop 3 [0x80, 0x41] []).2.2 = true :=
  ⟨by decide, c8_decode_loop_terminates 3 [0x80, 0x41] [] (by decide)⟩

/-- C9: after processing any sequence of chunks, the retained `byte_buffer`
holds no completely decodable prefix: decoding it yields no code points
(it is empty, or decoding fails at offset 0) — every decodable prefix was
decoded, emitted and removed before the next chunk is read, and this holds
at every rest point since `chunks` ranges over all prefixes of a stream. -/
theorem c9_pending_buffer_undecodable (chunks : List (List Nat)) :
    utf8Decode ((processEventStream chunks).2) =
      ([], (processEventStream chunks).2) :=
  processEventStream_buffer_inv chunks

/-- C10: the value returned by the event-stream branch of
`_process_response` is exactly the concatenation of the emitted fragments;
the final `byte_buffer` is never flushed and leaves no trace: two runs with
the same emitted fragments return the same string, whatever trailing bytes
remain pending in their buffers. -/
theorem c10_trailing_bytes_silently_dropped (chunks chunks' : List (List Nat))
    (h : (processEventStream chunks).1 = (processEventStream chunks').1) :
    process_response chunks = (processEventStream chunks).1.flatten ∧
      process_response chunks = process_response chunks' :=
  ⟨rfl, by simp [process_response, h]⟩

theorem c10_trailing_bytes_silently_dropped_witness :
    ((processEventStream [[0x41, 0xE3]]).1 = (processEventStream [[0x41]]).1) ∧
      (processEventStream [[0x41, 0xE3]]).2 = [0xE3] ∧
      (processEventStream [[0x41]]).2 = [] ∧
      process_response [[0x41, 0xE3]] = process_response [[0x41]] :=
  ⟨by decide, by decide, by decide,
    (c10_trailing_bytes_silently_dropped [[0x41, 0xE3]] [[0x41]] (by decide)).2⟩
